import Mathlib

/-!
Verification of the version reconciliation engine of
`scripts/update-version.mjs` (the global-counter variant).

The script is shallowly embedded: every effectful interaction (file reads and
writes, `git` queries, the `tfx` marketplace query, the clock) is passed in as
an explicit value, and the functions below mirror the source functions of the
script, keeping their names.  Machine numbers are modelled as `Int` (JavaScript
numbers behave as exact integers in the ranges this script manipulates).
-/

set_option autoImplicit false

/-! ### JavaScript string primitives used by the script -/

/-- Digit list to a natural number, most significant digit first. -/
def digitsToNat (ds : List Char) : Nat :=
  ds.foldl (fun a c => a * 10 + (c.toNat - 48)) 0

/-- Model of JavaScript `parseInt(s, 10)`: skip leading whitespace, read an
optional sign and then the longest leading run of decimal digits; `none`
models `NaN` (no digits found). -/
def jsParseInt (s : String) : Option Int :=
  let cs := s.data.dropWhile Char.isWhitespace
  match cs with
  | '-' :: rest =>
    let ds := rest.takeWhile Char.isDigit
    if ds.isEmpty then none else some (-(digitsToNat ds : Int))
  | '+' :: rest =>
    let ds := rest.takeWhile Char.isDigit
    if ds.isEmpty then none else some ((digitsToNat ds : Int))
  | _ =>
    let ds := cs.takeWhile Char.isDigit
    if ds.isEmpty then none else some ((digitsToNat ds : Int))

/-- Model of JavaScript `Number(s) || 0` as used by `parseVersion`: the whole
trimmed string must be an optionally signed decimal integer literal, otherwise
the result is `0` (`Number` yields `NaN` on such strings and `NaN || 0` is
`0`; the empty string yields `0` as well).  Fractional, exponent and hex
literals, which cannot appear in a dot-separated version component in integer
form, are not modelled and also fall to `0`. -/
def jsNumberOr0 (s : String) : Int :=
  let cs := ((s.data.dropWhile Char.isWhitespace).reverse.dropWhile Char.isWhitespace).reverse
  match cs with
  | [] => 0
  | '-' :: rest =>
    if !rest.isEmpty && rest.all Char.isDigit then -(digitsToNat rest : Int) else 0
  | '+' :: rest =>
    if !rest.isEmpty && rest.all Char.isDigit then (digitsToNat rest : Int) else 0
  | _ =>
    if cs.all Char.isDigit then (digitsToNat cs : Int) else 0

/-- Model of JavaScript `String.prototype.trim`. -/
def jsTrim (s : String) : String :=
  String.mk (((s.data.dropWhile Char.isWhitespace).reverse.dropWhile Char.isWhitespace).reverse)

/-- Auxiliary splitter: split a character list at every occurrence of `sep`,
accumulating the current (reversed) token. -/
def splitOnCharAux (sep : Char) : List Char → List Char → List String
  | [], acc => [String.mk acc.reverse]
  | c :: rest, acc =>
    if c = sep then String.mk acc.reverse :: splitOnCharAux sep rest []
    else splitOnCharAux sep rest (c :: acc)

/-- Model of JavaScript `s.split(sep)` for a one-character separator: the empty
string splits to `[""]`, separators at the ends produce empty tokens, exactly
as in JavaScript. -/
def splitOnChar (sep : Char) (s : String) : List String :=
  splitOnCharAux sep s.data []

/-- `version.split('.')` as used throughout the script. -/
def splitDots (s : String) : List String :=
  splitOnChar '.' s

/-- Model of JavaScript `s.startsWith(pre)`. -/
def jsStartsWith (s pre : String) : Bool :=
  pre.data.isPrefixOf s.data

/-- Model of JavaScript `s.slice(n)` for a non-negative index. -/
def jsSlice (s : String) (n : Nat) : String :=
  String.mk (s.data.drop n)

/-! ### Data model: manifests and the external world -/

/-- One entry of a manifest's `files` array; `path` is `none` when the `path`
property is absent or not a string. -/
structure FileEntry where
  path : Option String

deriving instance DecidableEq for FileEntry

/-- The `metadata` object of a manifest; both fields optional. -/
structure VersionMetadata where
  lastVersionCommit : Option String
  lastVersionUpdate : Option String

deriving instance DecidableEq for VersionMetadata

/-- A parsed extension manifest, with exactly the fields the script touches.
`none` models an absent (or non-string / non-array) property. -/
structure Manifest where
  id : Option String
  version : Option String
  files : Option (List FileEntry)
  metadata : Option VersionMetadata

deriving instance DecidableEq for Manifest

/-- Result of the `git log <last>..HEAD -- <paths>` query performed by
`hasExtensionChanges`: either the subprocess threw, or it produced the given
standard output. -/
inductive GitLogResult where
  | err : GitLogResult
  | ok (output : String) : GitLogResult

deriving instance DecidableEq for GitLogResult

/-- Result of the `git rev-parse HEAD` query performed by `getCurrentCommit`. -/
inductive GitRevResult where
  | err : GitRevResult
  | ok (output : String) : GitRevResult

deriving instance DecidableEq for GitRevResult

/-- Result of the `tfx extension show` invocation inside
`getMarketplaceVersion`.  `err` models the subprocess throwing or its output
failing to parse as JSON (both are caught by the same `try`); `data vs` models
a successfully parsed response whose optional chain `data?.versions` yields
the list `vs`, each element being that entry's optional `version` field
(entity decoding happens before parsing and is absorbed into this value). -/
inductive TfxOutcome where
  | err : TfxOutcome
  | data (versions : List (Option String)) : TfxOutcome

deriving instance DecidableEq for TfxOutcome

/-- The external world observed while one manifest is processed. -/
structure UnitEnv where
  gitLog : GitLogResult
  tfx : TfxOutcome
  gitRev : GitRevResult
  now : String

deriving instance DecidableEq for UnitEnv

/-- Parsed `(major, minor, patch)` triple, as produced by `parseVersion`. -/
structure Version where
  major : Int
  minor : Int
  patch : Int

deriving instance DecidableEq for Version

/-! ### The script's leaf functions -/

/-- `parseVersion` (lines 190–197): split on dots, convert each part with
`Number`, defaulting every missing or non-numeric part to `0`. -/
def parseVersion (version : String) : Version :=
  let parts := splitDots version
  { major := jsNumberOr0 (parts.getD 0 "")
    minor := jsNumberOr0 (parts.getD 1 "")
    patch := jsNumberOr0 (parts.getD 2 "") }

/-- Character class of the identifier validation regex
`/^[a-zA-Z0-9_-]+$/` in `getMarketplaceVersion`. -/
def isIdChar (c : Char) : Bool :=
  c.isAlpha || c.isDigit || c = '_' || c = '-'

/-- The whole validation regex: at least one character, all from the class. -/
def validId (s : String) : Bool :=
  !s.data.isEmpty && s.data.all isIdChar

/-- `getMarketplaceVersion` (lines 141–183): `none` when an identifier is
missing or empty (falsy), fails validation, the subprocess or JSON parse
throws, or the parsed data carries no first version (including the falsy
empty string collapsed by `|| null`). -/
def getMarketplaceVersion (publisherId extensionId : Option String)
    (tfx : TfxOutcome) : Option String :=
  match publisherId, extensionId with
  | some pid, some eid =>
    if pid = "" || eid = "" then none
    else if !(validId pid && validId eid) then none
    else
      match tfx with
      | .err => none
      | .data versions =>
        match versions with
        | [] => none
        | v :: _ =>
          match v with
          | some s => if s = "" then none else some s
          | none => none
  | _, _ => none

/-- `getCurrentCommit` (lines 203–214): the trimmed `git rev-parse HEAD`
output, or `none` when the query threw. -/
def getCurrentCommit : GitRevResult → Option String
  | .err => none
  | .ok out => some (jsTrim out)

/-- `hasExtensionChanges` (lines 222–242).  The first argument is kept for
interface fidelity; the `git log` result for `lastCommit..HEAD -- paths` is
supplied as `q`.  A falsy (`none` or empty) last commit yields `true`; a query
failure yields `true`; otherwise the trimmed output must be non-empty. -/
def hasExtensionChanges (_extensionPaths : List String)
    (lastCommit : Option String) (q : GitLogResult) : Bool :=
  match lastCommit with
  | none => true
  | some c =>
    if c = "" then true
    else
      match q with
      | .err => true
      | .ok output => (jsTrim output).length > 0

/-- Insertion into the `Set` of `getExtensionPaths`, preserving insertion
order as JavaScript `Set` iteration does. -/
def addUnique (l : List String) (x : String) : List String :=
  if x ∈ l then l else l ++ [x]

/-- `getExtensionPaths` (lines 108–133): collect, for each `files` entry with
a truthy string `path`, either the collapsed `apps/<dir>/` form (when the
slash-split has at least two parts and starts with `apps`) or the literal
path, de-duplicated in insertion order. -/
def getExtensionPaths (m : Manifest) : List String :=
  match m.files with
  | none => []
  | some fs =>
    fs.foldl
      (fun acc f =>
        match f.path with
        | some p =>
          if p = "" then acc
          else
            let pathParts := splitOnChar '/' p
            if 2 ≤ pathParts.length ∧ pathParts.getD 0 "" = "apps" then
              addUnique acc (pathParts.getD 0 "" ++ "/" ++ pathParts.getD 1 "" ++ "/")
            else
              addUnique acc p
        | none => acc)
      []

/-- Lines 274–277: strip the repository root (with either separator) from the
manifest path. -/
def repoRelativePath (rootDir manifestPath : String) : String :=
  if jsStartsWith manifestPath (rootDir ++ "/") || jsStartsWith manifestPath (rootDir ++ "\\") then
    jsSlice manifestPath (rootDir.length + 1)
  else manifestPath

/-- Lines 271–280: the extension paths plus the manifest's own
repository-relative path, appended when truthy and not already present. -/
def trackedPaths (rootDir manifestPath : String) (m : Manifest) : List String :=
  let extensionPaths := getExtensionPaths m
  let mrp := repoRelativePath rootDir manifestPath
  if mrp ≠ "" ∧ mrp ∉ extensionPaths then extensionPaths ++ [mrp] else extensionPaths

/-- `manifest.metadata?.lastVersionCommit || null` (line 287). -/
def lastVersionCommitOf (m : Manifest) : Option String :=
  match m.metadata with
  | some md =>
    match md.lastVersionCommit with
    | some c => if c = "" then none else some c
    | none => none
  | none => none

/-- The raw `metadata.lastVersionCommit` field (absent collapsed to `none`). -/
def storedLastVersionCommit (m : Manifest) : Option String :=
  match m.metadata with
  | some md => md.lastVersionCommit
  | none => none

/-- The raw `metadata.lastVersionUpdate` field (absent collapsed to `none`). -/
def storedLastVersionUpdate (m : Manifest) : Option String :=
  match m.metadata with
  | some md => md.lastVersionUpdate
  | none => none

/-! ### The reconciler core -/

/-- The fatal errors thrown by `updateManifestVersion`. -/
inductive UpdateError where
  | missingVersion (manifestPath : String) : UpdateError
  | badFormat (version : String) : UpdateError
  | badNumbers (version : String) : UpdateError
  | noPaths (manifestPath : String) : UpdateError

deriving instance DecidableEq for UpdateError

/-- The value returned by `updateManifestVersion` (lines 299–304 and
366–371). -/
structure UpdateResult where
  extensionId : Option String
  oldVersion : String
  newVersion : String
  updated : Bool

deriving instance DecidableEq for UpdateResult

/-- The observable effect of one `updateManifestVersion` call: the manifest
written back to disk (`none` when nothing was written) plus the returned
result. -/
structure UpdateOutcome where
  written : Option Manifest
  result : UpdateResult

deriving instance DecidableEq for UpdateOutcome

/-- Lines 250–268 of `updateManifestVersion`: reject an absent, empty or
non-string version, a version with fewer than two dot-separated parts, or
non-integer major/minor (and patch, when present; a missing patch defaults
to `0`). -/
def parseManifestVersion (manifestPath : String) (m : Manifest) :
    Except UpdateError (String × Int × Int × Int) :=
  match m.version with
  | none => .error (.missingVersion manifestPath)
  | some cv =>
    if cv = "" then .error (.missingVersion manifestPath)
    else
      let versionParts := splitDots cv
      if versionParts.length < 2 then .error (.badFormat cv)
      else
        match jsParseInt (versionParts.getD 0 ""), jsParseInt (versionParts.getD 1 ""),
            (if 3 ≤ versionParts.length then jsParseInt (versionParts.getD 2 "") else some 0) with
        | some major, some minor, some currentPatch => .ok (cv, major, minor, currentPatch)
        | _, _, _ => .error (.badNumbers cv)

/-- Lines 314–330: raise the candidate patch above the marketplace patch, but
only when the marketplace version is truthy and its parsed major/minor equal
the manifest's. -/
def applyMarketplaceFloor (major minor patch0 : Int) (marketplaceVersion : Option String) : Int :=
  match marketplaceVersion with
  | some mv =>
    if mv = "" then patch0
    else
      let mp := parseVersion mv
      if major = mp.major ∧ minor = mp.minor then
        if patch0 ≤ mp.patch then mp.patch + 1 else patch0
      else patch0
  | none => patch0

/-- Lines 347–355: the metadata written back.  An absent metadata object is
replaced by an empty one; the commit and timestamp fields are set only when
`getCurrentCommit` produced a truthy hash. -/
def newMetadata (m : Manifest) (env : UnitEnv) : VersionMetadata :=
  let md0 := m.metadata.getD ⟨none, none⟩
  match getCurrentCommit env.gitRev with
  | some c => if c = "" then md0 else ⟨some c, some env.now⟩
  | none => md0

/-- The patch value finally written (line 308 composed with lines 310–330):
the marketplace floor applied to `max versionCounter (currentPatch + 1)`. -/
def newPatch (m : Manifest) (major minor currentPatch versionCounter : Int)
    (publisherId : Option String) (env : UnitEnv) : Int :=
  applyMarketplaceFloor major minor (max versionCounter (currentPatch + 1))
    (getMarketplaceVersion publisherId m.id env.tfx)

/-- `` `${major}.${minor}.${patch}` `` (line 333). -/
def mkVersionString (major minor patch : Int) : String :=
  toString major ++ "." ++ toString minor ++ "." ++ toString patch

/-- Lines 307–371, the branch taken when the unit has changes: compute the
new patch, rewrite the version string, refresh the metadata, write the
manifest back and return an `updated` result. -/
def performUpdate (m : Manifest) (cv : String) (major minor currentPatch : Int)
    (versionCounter : Int) (publisherId : Option String) (env : UnitEnv) : UpdateOutcome :=
  let newVersion := mkVersionString major minor
    (newPatch m major minor currentPatch versionCounter publisherId env)
  { written := some { m with version := some newVersion, metadata := some (newMetadata m env) }
    result := { extensionId := m.id, oldVersion := cv, newVersion := newVersion, updated := true } }

/-- `updateManifestVersion` (lines 244–372): parse the version, derive the
tracked paths (fatal when empty), detect changes, then either skip (no write)
or perform the update. -/
def updateManifestVersion (rootDir manifestPath : String) (m : Manifest)
    (versionCounter : Int) (publisherId : Option String) (forceUpdate : Bool)
    (env : UnitEnv) : Except UpdateError UpdateOutcome :=
  match parseManifestVersion manifestPath m with
  | .error e => .error e
  | .ok (cv, major, minor, currentPatch) =>
    let extensionPaths := trackedPaths rootDir manifestPath m
    if extensionPaths = [] then .error (.noPaths manifestPath)
    else
      let hasChanges := forceUpdate || hasExtensionChanges extensionPaths (lastVersionCommitOf m) env.gitLog
      if hasChanges then
        .ok (performUpdate m cv major minor currentPatch versionCounter publisherId env)
      else
        .ok { written := none
              result := { extensionId := m.id, oldVersion := cv, newVersion := cv, updated := false } }

/-- One manifest together with the external observations made while it is
processed. -/
structure UnitInput where
  manifestPath : String
  manifest : Manifest
  env : UnitEnv

deriving instance DecidableEq for UnitInput

/-- The state accumulated by the loop of `updateAllVersions`: the final
counter value, the per-unit outcomes in processing order, and every value
persisted to the counter file, in order. -/
structure RunState where
  counter : Int
  outcomes : List UpdateOutcome
  counterWrites : List Int

deriving instance DecidableEq for RunState

/-- Lines 415–431 of `updateAllVersions`: process each manifest in order with
the current counter; a thrown error aborts the run; after each updated unit
the counter is incremented by one and persisted. -/
def processAll (rootDir : String) (publisherId : Option String) (forceUpdate : Bool) :
    List UnitInput → Int → Except UpdateError RunState
  | [], vc => .ok { counter := vc, outcomes := [], counterWrites := [] }
  | u :: rest, vc =>
    match updateManifestVersion rootDir u.manifestPath u.manifest vc publisherId forceUpdate u.env with
    | .error e => .error e
    | .ok out =>
      if out.result.updated then
        match processAll rootDir publisherId forceUpdate rest (vc + 1) with
        | .error e => .error e
        | .ok s => .ok { counter := s.counter, outcomes := out :: s.outcomes
                         counterWrites := (vc + 1) :: s.counterWrites }
      else
        match processAll rootDir publisherId forceUpdate rest vc with
        | .error e => .error e
        | .ok s => .ok { counter := s.counter, outcomes := out :: s.outcomes
                         counterWrites := s.counterWrites }

/-- Strict lexicographic order on parsed version triples. -/
def versionLexLt (a b : Int × Int × Int) : Prop :=
  a.1 < b.1 ∨ (a.1 = b.1 ∧ (a.2.1 < b.2.1 ∨ (a.2.1 = b.2.1 ∧ a.2.2 < b.2.2)))

/-! ### Concrete inputs used by witnesses and counterexamples -/

/-- An environment in which every external query fails: `git log` and
`git rev-parse` throw and `tfx` is unavailable. -/
def envErr : UnitEnv := { gitLog := .err, tfx := .err, gitRev := .err, now := "t" }

/-- Manifest at version `2.3.10`, no recorded metadata. -/
def mC1 : Manifest :=
  { id := some "ext-c1", version := some "2.3.10", files := none, metadata := none }

/-- The unit for `mC1`, as discovered at the repository root. -/
def uC1 : UnitInput :=
  { manifestPath := "/repo/azure-devops-extension-c1.json", manifest := mC1, env := envErr }

/-- First of two manifests sharing version `1.0.10`. -/
def mA : Manifest :=
  { id := some "ext-a", version := some "1.0.10", files := none, metadata := none }

/-- Second of two manifests sharing version `1.0.10`. -/
def mB : Manifest :=
  { id := some "ext-b", version := some "1.0.10", files := none, metadata := none }

/-- The unit for `mA`. -/
def uA : UnitInput :=
  { manifestPath := "/repo/azure-devops-extension-a.json", manifest := mA, env := envErr }

/-- The unit for `mB`. -/
def uB : UnitInput :=
  { manifestPath := "/repo/azure-devops-extension-b.json", manifest := mB, env := envErr }

/-- Environment in which `tfx` reports the published version `2.3.15`. -/
def envMkt : UnitEnv :=
  { gitLog := .err, tfx := .data [some "2.3.15"], gitRev := .err, now := "t" }

/-- Manifest carrying recorded version metadata. -/
def mMeta : Manifest :=
  { id := some "ext-m", version := some "2.3.10", files := none,
    metadata := some { lastVersionCommit := some "abc12345", lastVersionUpdate := some "2024-01-01" } }

/-- Environment for a unit with no changes: the `git log` query succeeds with
empty output and `git rev-parse` returns a head commit. -/
def envNoChanges : UnitEnv :=
  { gitLog := .ok "\n", tfx := .err, gitRev := .ok "def67890\n", now := "t" }

/-- The unit for `mMeta` in the no-changes environment. -/
def uSkip : UnitInput :=
  { manifestPath := "/repo/azure-devops-extension-m.json", manifest := mMeta, env := envNoChanges }

/-- Outcome of updating `mC1` with counter `5` and no marketplace. -/
def outC1 : UpdateOutcome :=
  { written := some { id := some "ext-c1", version := some "2.3.11", files := none,
                      metadata := some { lastVersionCommit := none, lastVersionUpdate := none } }
    result := { extensionId := some "ext-c1", oldVersion := "2.3.10",
                newVersion := "2.3.11", updated := true } }

/-- Outcome of updating `mC1` with counter `5` against marketplace version
`2.3.15`: the candidate `11` is raised to `16`. -/
def outC4 : UpdateOutcome :=
  { written := some { id := some "ext-c1", version := some "2.3.16", files := none,
                      metadata := some { lastVersionCommit := none, lastVersionUpdate := none } }
    result := { extensionId := some "ext-c1", oldVersion := "2.3.10",
                newVersion := "2.3.16", updated := true } }

/-- Outcome of processing `mMeta` in the no-changes environment: skipped,
nothing written. -/
def outSkip : UpdateOutcome :=
  { written := none
    result := { extensionId := some "ext-m", oldVersion := "2.3.10",
                newVersion := "2.3.10", updated := false } }

/-- Outcome of force-updating `mMeta` with counter `5` while `git rev-parse`
fails: version bumped, metadata carried over unchanged. -/
def outC10 : UpdateOutcome :=
  { written := some { id := some "ext-m", version := some "2.3.11", files := none,
                      metadata := some { lastVersionCommit := some "abc12345",
                                         lastVersionUpdate := some "2024-01-01" } }
    result := { extensionId := some "ext-m", oldVersion := "2.3.10",
                newVersion := "2.3.11", updated := true } }

/-! ### Helper lemmas -/

theorem le_applyMarketplaceFloor (major minor p0 : Int) (mv : Option String) :
    p0 ≤ applyMarketplaceFloor major minor p0 mv := by
  unfold applyMarketplaceFloor
  cases mv with
  | none => exact le_refl _
  | some s =>
    simp only
    split
    · exact le_refl _
    · split
      · split
        · omega
        · exact le_refl _
      · exact le_refl _

theorem getMarketplaceVersion_ne_empty {pid eid : Option String} {t : TfxOutcome} {mv : String}
    (h : getMarketplaceVersion pid eid t = some mv) : mv ≠ "" := by
  unfold getMarketplaceVersion at h
  cases pid with
  | none => simp at h
  | some p =>
    cases eid with
    | none => simp at h
    | some e =>
      simp only at h
      split at h
      · simp at h
      · split at h
        · simp at h
        · cases t with
          | err => simp at h
          | data versions =>
            cases versions with
            | nil => simp at h
            | cons v rest =>
              cases v with
              | none => simp at h
              | some s =>
                simp only at h
                split at h
                · simp at h
                · simp only [Option.some.injEq] at h
                  subst h
                  assumption

/-- Case analysis of a successful `updateManifestVersion` call: the version
parsed, the tracked paths were non-empty, and the unit was either skipped
(no write) or updated via `performUpdate`, according to the change flag. -/
theorem updateManifestVersion_ok_cases {root path : String} {m : Manifest} {vc : Int}
    {pub : Option String} {force : Bool} {env : UnitEnv} {out : UpdateOutcome}
    (h : updateManifestVersion root path m vc pub force env = Except.ok out) :
    ∃ cv major minor cp,
      parseManifestVersion path m = Except.ok (cv, major, minor, cp) ∧
      trackedPaths root path m ≠ [] ∧
      (((force || hasExtensionChanges (trackedPaths root path m) (lastVersionCommitOf m) env.gitLog) = false ∧
          out = { written := none,
                  result := { extensionId := m.id, oldVersion := cv, newVersion := cv, updated := false } }) ∨
        ((force || hasExtensionChanges (trackedPaths root path m) (lastVersionCommitOf m) env.gitLog) = true ∧
          out = performUpdate m cv major minor cp vc pub env)) := by
  unfold updateManifestVersion at h
  split at h
  · exact absurd h (by simp)
  · rename_i cv major minor cp heq
    refine ⟨cv, major, minor, cp, heq, ?_⟩
    dsimp only at h
    split at h
    · exact absurd h (by simp)
    · rename_i hpaths
      refine ⟨hpaths, ?_⟩
      split at h
      · rename_i hch
        right
        simp only [Except.ok.injEq] at h
        exact ⟨hch, h.symm⟩
      · rename_i hch
        left
        simp only [Except.ok.injEq] at h
        exact ⟨Bool.not_eq_true _ ▸ Bool.of_not_eq_true hch, h.symm⟩

theorem applyMarketplaceFloor_some (major minor p0 : Int) {mv : String} (hne : mv ≠ "") :
    applyMarketplaceFloor major minor p0 (some mv) =
      if major = (parseVersion mv).major ∧ minor = (parseVersion mv).minor then
        (if p0 ≤ (parseVersion mv).patch then (parseVersion mv).patch + 1 else p0)
      else p0 := by
  unfold applyMarketplaceFloor
  simp [hne]

theorem parseManifestVersion_error_not_noPaths {path : String} {m : Manifest} {e : UpdateError}
    (h : parseManifestVersion path m = Except.error e) (p : String) :
    e ≠ UpdateError.noPaths p := by
  intro he
  subst he
  unfold parseManifestVersion at h
  split at h
  · simp at h
  · split at h
    · simp at h
    · dsimp only at h
      split at h
      · simp at h
      · split at h <;> simp at h

theorem parseManifestVersion_two_parts {path : String} {m : Manifest} {cv : String}
    {major minor cp : Int}
    (h : parseManifestVersion path m = Except.ok (cv, major, minor, cp))
    (h2 : (splitDots cv).length = 2) : cp = 0 := by
  unfold parseManifestVersion at h
  split at h
  · simp at h
  · rename_i v
    split at h
    · simp at h
    · dsimp only at h
      split at h
      · simp at h
      · split at h
        · rename_i major' minor' cp' heq1 heq2 heq3
          simp only [Except.ok.injEq, Prod.mk.injEq] at h
          obtain ⟨rfl, rfl, rfl, rfl⟩ := h
          rw [h2] at heq3
          simp at heq3
          exact heq3.symm
        · simp at h

theorem isPrefixOf_append (l t : List Char) : l.isPrefixOf (l ++ t) = true := by
  induction l with
  | nil => simp [List.isPrefixOf]
  | cons c cs ih => simp [List.isPrefixOf, ih]

theorem repoRelativePath_join (root file : String) :
    repoRelativePath root (root ++ "/" ++ file) = file := by
  have hdata : (root ++ "/" ++ file).data = (root ++ "/").data ++ file.data :=
    String.data_append _ _
  have hsw : jsStartsWith (root ++ "/" ++ file) (root ++ "/") = true := by
    unfold jsStartsWith
    rw [hdata]
    exact isPrefixOf_append _ _
  have hlen : root.length + 1 = (root ++ "/").data.length := by
    rw [String.data_append, List.length_append]
    rfl
  have hslice : jsSlice (root ++ "/" ++ file) (root.length + 1) = file := by
    unfold jsSlice
    rw [hdata, hlen, List.drop_left]
  unfold repoRelativePath
  rw [hsw]
  simp [hslice]

/-! ### Claim theorems -/

/-- C1: the claim states that after a unit is updated the global counter is
set to `candidatePatch + 1` and persisted, so the next unit reads the last
written patch plus one.  The code instead increments the counter by one:
with counter `5` and manifest version `2.3.10` the written patch is `11`
(so the claim requires the persisted counter to be `12`), but the run
persists counter `6`. -/
theorem C1_counter_persisted_is_old_counter_plus_one :
    (processAll "/repo" none false [uC1] 5).toOption.map
        (fun s => (s.counterWrites, s.outcomes.map (fun o => (o.result.newVersion, o.result.updated)))) =
      some ([6], [("2.3.11", true)]) ∧ (6 : Int) ≠ 11 + 1 := by
  exact ⟨rfl, by decide⟩

/-- C2: the claim states that no two updated units of one run receive the
same patch value, for all starting counters and manifest versions.  Starting
from counter `1` with two changed manifests both at version `1.0.10`, the
code updates both units to version `1.0.11`: the two resulting patch values
coincide. -/
theorem C2_two_updated_units_same_patch :
    (processAll "/repo" none false [uA, uB] 1).toOption.map
        (fun s => s.outcomes.map (fun o => (o.result.extensionId, o.result.newVersion, o.result.updated))) =
      some [(some "ext-a", "1.0.11", true), (some "ext-b", "1.0.11", true)] := by
  exact rfl

/-- C5 counterexample: the claim states that a transiently failed registry
lookup and a lookup that finds the unit absent are distinguishable to
downstream logic.  In the code both return `null`: a failing `tfx`
invocation and a successful one whose response carries no versions produce
the same result for the same valid identifiers. -/
theorem C5_failure_and_absence_indistinguishable :
    getMarketplaceVersion (some "publisher1") (some "extension-a") TfxOutcome.err =
      getMarketplaceVersion (some "publisher1") (some "extension-a") (TfxOutcome.data []) ∧
    getMarketplaceVersion (some "publisher1") (some "extension-a") TfxOutcome.err = none := by
  exact ⟨rfl, rfl⟩

/-- C5 amended: the registry lookup returns either a published version string
or `none`; a failed query and a response with no published versions both map
to `none`, for every pair of identifiers, and downstream the marketplace
floor is a no-op in both cases. -/
theorem C5_lookup_collapses_unknown_and_unpublished (pid eid : Option String)
    (major minor p0 : Int) :
    getMarketplaceVersion pid eid TfxOutcome.err = none ∧
    getMarketplaceVersion pid eid (TfxOutcome.data []) = none ∧
    applyMarketplaceFloor major minor p0 (getMarketplaceVersion pid eid TfxOutcome.err) = p0 ∧
    applyMarketplaceFloor major minor p0 (getMarketplaceVersion pid eid (TfxOutcome.data [])) = p0 := by
  have h1 : getMarketplaceVersion pid eid TfxOutcome.err = none := by
    unfold getMarketplaceVersion
    cases pid with
    | none => rfl
    | some p =>
      cases eid with
      | none => rfl
      | some e =>
        simp only
        split
        · rfl
        · split <;> rfl
  have h2 : getMarketplaceVersion pid eid (TfxOutcome.data []) = none := by
    unfold getMarketplaceVersion
    cases pid with
    | none => rfl
    | some p =>
      cases eid with
      | none => rfl
      | some e =>
        simp only
        split
        · rfl
        · split <;> rfl
  exact ⟨h1, h2, by rw [h1]; rfl, by rw [h2]; rfl⟩

/-- C7: the change detector returns `true` unconditionally when no baseline
commit is recorded (including a falsy empty one), returns `true` whenever the
version-control query throws, and returns `false` exactly when a baseline is
recorded and the query succeeds with no commits reported (empty trimmed
output). -/
theorem C7_change_detector_fail_open (paths : List String) (c out : String) (q : GitLogResult) :
    hasExtensionChanges paths none q = true ∧
    hasExtensionChanges paths (some "") q = true ∧
    hasExtensionChanges paths (some c) GitLogResult.err = true ∧
    (hasExtensionChanges paths (some c) (GitLogResult.ok out) = false ↔
      c ≠ "" ∧ (jsTrim out).length = 0) := by
  refine ⟨rfl, rfl, ?_, ?_⟩
  · by_cases hc : c = "" <;> simp [hasExtensionChanges, hc]
  · by_cases hc : c = "" <;> simp [hasExtensionChanges, hc]

/-- C3: whenever `updateManifestVersion` returns an updated outcome, the
manifest's parsed major and minor are carried over unchanged into the new
version string, the new patch strictly exceeds the previous patch (`0` for a
two-part version), and hence the new `(major, minor, patch)` triple is
strictly greater than the old one in lexicographic order. -/
theorem C3_monotonicity (root path : String) (m : Manifest) (vc : Int)
    (pub : Option String) (force : Bool) (env : UnitEnv) (out : UpdateOutcome)
    (h : updateManifestVersion root path m vc pub force env = Except.ok out)
    (hu : out.result.updated = true) :
    ∃ major minor cp patch,
      parseManifestVersion path m = Except.ok (out.result.oldVersion, major, minor, cp) ∧
      out.result.newVersion = mkVersionString major minor patch ∧
      cp < patch ∧ versionLexLt (major, minor, cp) (major, minor, patch) := by
  obtain ⟨cv, major, minor, cp, hp, -, hcase⟩ := updateManifestVersion_ok_cases h
  rcases hcase with ⟨-, rfl⟩ | ⟨-, rfl⟩
  · simp at hu
  · refine ⟨major, minor, cp, newPatch m major minor cp vc pub env, hp, rfl, ?_, ?_⟩
    · have h1 : cp + 1 ≤ max vc (cp + 1) := le_max_right _ _
      have h2 := le_applyMarketplaceFloor major minor (max vc (cp + 1))
        (getMarketplaceVersion pub m.id env.tfx)
      unfold newPatch
      omega
    · have h1 : cp + 1 ≤ max vc (cp + 1) := le_max_right _ _
      have h2 := le_applyMarketplaceFloor major minor (max vc (cp + 1))
        (getMarketplaceVersion pub m.id env.tfx)
      have h3 : cp < newPatch m major minor cp vc pub env := by
        unfold newPatch; omega
      exact Or.inr ⟨rfl, Or.inr ⟨rfl, h3⟩⟩

/-- C3 witness: the unit at version `2.3.10` with counter `5` is updated to
`2.3.11`, and the monotonicity conclusion holds there. -/
theorem C3_monotonicity_witness :
    updateManifestVersion "/repo" "/repo/azure-devops-extension-c1.json" mC1 5 none true envErr =
      Except.ok outC1 ∧
    (∃ major minor cp patch,
      parseManifestVersion "/repo/azure-devops-extension-c1.json" mC1 =
        Except.ok (outC1.result.oldVersion, major, minor, cp) ∧
      outC1.result.newVersion = mkVersionString major minor patch ∧
      cp < patch ∧ versionLexLt (major, minor, cp) (major, minor, patch)) :=
  ⟨rfl, C3_monotonicity "/repo" "/repo/azure-devops-extension-c1.json" mC1 5 none true envErr
    outC1 rfl rfl⟩

/-- C4: if the marketplace lookup yields a version whose parsed major and
minor equal the manifest's, the written patch is `registryPatch + 1` when the
local candidate `max vc (cp + 1)` does not exceed the registry patch and the
candidate otherwise, and in either case it strictly exceeds the registry
patch; if major or minor differ, the local candidate is written unchanged. -/
theorem C4_registry_dominance (root path : String) (m : Manifest) (vc : Int)
    (pub : Option String) (force : Bool) (env : UnitEnv) (out : UpdateOutcome) (mv : String)
    (h : updateManifestVersion root path m vc pub force env = Except.ok out)
    (hu : out.result.updated = true)
    (hmv : getMarketplaceVersion pub m.id env.tfx = some mv) :
    ∃ major minor cp,
      parseManifestVersion path m = Except.ok (out.result.oldVersion, major, minor, cp) ∧
      ((major = (parseVersion mv).major ∧ minor = (parseVersion mv).minor →
          out.result.newVersion = mkVersionString major minor
            (if max vc (cp + 1) ≤ (parseVersion mv).patch then (parseVersion mv).patch + 1
              else max vc (cp + 1)) ∧
          (parseVersion mv).patch <
            (if max vc (cp + 1) ≤ (parseVersion mv).patch then (parseVersion mv).patch + 1
              else max vc (cp + 1))) ∧
        (¬(major = (parseVersion mv).major ∧ minor = (parseVersion mv).minor) →
          out.result.newVersion = mkVersionString major minor (max vc (cp + 1)))) := by
  obtain ⟨cv, major, minor, cp, hp, -, hcase⟩ := updateManifestVersion_ok_cases h
  rcases hcase with ⟨-, rfl⟩ | ⟨-, rfl⟩
  · simp at hu
  · have hne : mv ≠ "" := getMarketplaceVersion_ne_empty hmv
    have hfloor : newPatch m major minor cp vc pub env =
        if major = (parseVersion mv).major ∧ minor = (parseVersion mv).minor then
          (if max vc (cp + 1) ≤ (parseVersion mv).patch then (parseVersion mv).patch + 1
            else max vc (cp + 1))
        else max vc (cp + 1) := by
      unfold newPatch
      rw [hmv, applyMarketplaceFloor_some _ _ _ hne]
    refine ⟨major, minor, cp, hp, ?_, ?_⟩
    · intro hmm
      constructor
      · show mkVersionString major minor (newPatch m major minor cp vc pub env) = _
        rw [hfloor, if_pos hmm]
      · split <;> omega
    · intro hmm
      show mkVersionString major minor (newPatch m major minor cp vc pub env) = _
      rw [hfloor, if_neg hmm]

/-- C4 witness: version `2.3.10`, counter `5`, marketplace `2.3.15`; the
candidate `11` is at most `15`, so the written version is `2.3.16`. -/
theorem C4_registry_dominance_witness :
    updateManifestVersion "/repo" "/repo/azure-devops-extension-c1.json" mC1 5 (some "pub1")
        true envMkt = Except.ok outC4 ∧
    getMarketplaceVersion (some "pub1") mC1.id envMkt.tfx = some "2.3.15" ∧
    (∃ major minor cp,
      parseManifestVersion "/repo/azure-devops-extension-c1.json" mC1 =
        Except.ok (outC4.result.oldVersion, major, minor, cp) ∧
      ((major = (parseVersion "2.3.15").major ∧ minor = (parseVersion "2.3.15").minor →
          outC4.result.newVersion = mkVersionString major minor
            (if max 5 (cp + 1) ≤ (parseVersion "2.3.15").patch then (parseVersion "2.3.15").patch + 1
              else max 5 (cp + 1)) ∧
          (parseVersion "2.3.15").patch <
            (if max 5 (cp + 1) ≤ (parseVersion "2.3.15").patch then (parseVersion "2.3.15").patch + 1
              else max 5 (cp + 1))) ∧
        (¬(major = (parseVersion "2.3.15").major ∧ minor = (parseVersion "2.3.15").minor) →
          outC4.result.newVersion = mkVersionString major minor (max 5 (cp + 1))))) :=
  ⟨rfl, rfl, C4_registry_dominance "/repo" "/repo/azure-devops-extension-c1.json" mC1 5
    (some "pub1") true envMkt outC4 "2.3.15" rfl rfl rfl⟩

/-- C6: for every updated unit the patch actually written is the marketplace
floor applied to exactly `max vc (cp + 1)` — the pre-registry candidate is
the maximum of the counter and the previous patch plus one, where a
two-part version contributes previous patch `0`. -/
theorem C6_local_floor (root path : String) (m : Manifest) (vc : Int)
    (pub : Option String) (force : Bool) (env : UnitEnv) (out : UpdateOutcome)
    (h : updateManifestVersion root path m vc pub force env = Except.ok out)
    (hu : out.result.updated = true) :
    ∃ major minor cp,
      parseManifestVersion path m = Except.ok (out.result.oldVersion, major, minor, cp) ∧
      out.result.newVersion = mkVersionString major minor
        (applyMarketplaceFloor major minor (max vc (cp + 1))
          (getMarketplaceVersion pub m.id env.tfx)) ∧
      ((splitDots out.result.oldVersion).length = 2 → cp = 0) := by
  obtain ⟨cv, major, minor, cp, hp, -, hcase⟩ := updateManifestVersion_ok_cases h
  rcases hcase with ⟨-, rfl⟩ | ⟨-, rfl⟩
  · simp at hu
  · exact ⟨major, minor, cp, hp, rfl, fun h2 => parseManifestVersion_two_parts hp h2⟩

/-- C6 witness: version `2.3.10` with counter `5` and no marketplace yields
candidate `max 5 11 = 11` and written version `2.3.11`. -/
theorem C6_local_floor_witness :
    updateManifestVersion "/repo" "/repo/azure-devops-extension-c1.json" mC1 5 none true envErr =
      Except.ok outC1 ∧
    (∃ major minor cp,
      parseManifestVersion "/repo/azure-devops-extension-c1.json" mC1 =
        Except.ok (outC1.result.oldVersion, major, minor, cp) ∧
      outC1.result.newVersion = mkVersionString major minor
        (applyMarketplaceFloor major minor (max 5 (cp + 1))
          (getMarketplaceVersion none mC1.id envErr.tfx)) ∧
      ((splitDots outC1.result.oldVersion).length = 2 → cp = 0)) :=
  ⟨rfl, C6_local_floor "/repo" "/repo/azure-devops-extension-c1.json" mC1 5 none true envErr
    outC1 rfl rfl⟩

theorem storedLastVersionCommit_setMeta (m : Manifest) (v : Option String) :
    storedLastVersionCommit
        { m with version := v, metadata := some (m.metadata.getD ⟨none, none⟩) } =
      storedLastVersionCommit m := by
  cases hm : m.metadata <;> simp [storedLastVersionCommit, hm]

theorem storedLastVersionUpdate_setMeta (m : Manifest) (v : Option String) :
    storedLastVersionUpdate
        { m with version := v, metadata := some (m.metadata.getD ⟨none, none⟩) } =
      storedLastVersionUpdate m := by
  cases hm : m.metadata <;> simp [storedLastVersionUpdate, hm]

theorem lastVersionCommitOf_setMeta (m : Manifest) (v : Option String) :
    lastVersionCommitOf
        { m with version := v, metadata := some (m.metadata.getD ⟨none, none⟩) } =
      lastVersionCommitOf m := by
  cases hm : m.metadata <;> simp [lastVersionCommitOf, hm]

/-- C8: a unit with no detected changes under `forceUpdate = false` is
skipped: its manifest is not written at all, its reported version is
unchanged, and the rest of the run proceeds from the same counter with no
counter-file write on this unit's account. -/
theorem C8_independence (root : String) (pub : Option String) (u : UnitInput) (vc : Int)
    (out : UpdateOutcome) (rest : List UnitInput)
    (h : updateManifestVersion root u.manifestPath u.manifest vc pub false u.env = Except.ok out)
    (hc : hasExtensionChanges (trackedPaths root u.manifestPath u.manifest)
        (lastVersionCommitOf u.manifest) u.env.gitLog = false) :
    out.result.updated = false ∧ out.written = none ∧
    out.result.newVersion = out.result.oldVersion ∧
    processAll root pub false (u :: rest) vc =
      Except.map
        (fun s => { counter := s.counter, outcomes := out :: s.outcomes,
                    counterWrites := s.counterWrites })
        (processAll root pub false rest vc) := by
  obtain ⟨cv, major, minor, cp, hp, hpaths, hcase⟩ := updateManifestVersion_ok_cases h
  rcases hcase with ⟨hch, rfl⟩ | ⟨hch, rfl⟩
  · refine ⟨rfl, rfl, rfl, ?_⟩
    simp only [processAll, h]
    cases hrest : processAll root pub false rest vc with
    | error e => simp [hrest, Except.map]
    | ok s => simp [hrest, Except.map]
  · simp [hc] at hch

/-- C8 witness: `mMeta` has a recorded baseline and the `git log` query
reports no commits, so with `forceUpdate = false` the unit is skipped and a
subsequent empty run starts from the same counter. -/
theorem C8_independence_witness :
    updateManifestVersion "/repo" "/repo/azure-devops-extension-m.json" mMeta 5 none false
        envNoChanges = Except.ok outSkip ∧
    (outSkip.result.updated = false ∧ outSkip.written = none ∧
     outSkip.result.newVersion = outSkip.result.oldVersion ∧
     processAll "/repo" none false (uSkip :: []) 5 =
       Except.map
         (fun s => { counter := s.counter, outcomes := outSkip :: s.outcomes,
                     counterWrites := s.counterWrites })
         (processAll "/repo" none false [] 5)) :=
  ⟨rfl, C8_independence "/repo" none uSkip 5 outSkip [] rfl rfl⟩

/-- C9: for every manifest path of the form produced by the run loop —
the repository root joined with a non-empty file name — the tracked-path
list is non-empty (the manifest's own repository-relative path is appended
whenever the `files`-derived list would not supply it), so
`updateManifestVersion` never throws the "No file paths found" error, even
when the `files` array is missing or empty. -/
theorem C9_noPaths_branch_unreachable (root file : String) (m : Manifest) (vc : Int)
    (pub : Option String) (force : Bool) (env : UnitEnv) (p : String)
    (hf : file ≠ "") :
    trackedPaths root (root ++ "/" ++ file) m ≠ [] ∧
    updateManifestVersion root (root ++ "/" ++ file) m vc pub force env ≠
      Except.error (UpdateError.noPaths p) := by
  have hrel := repoRelativePath_join root file
  have hne : trackedPaths root (root ++ "/" ++ file) m ≠ [] := by
    unfold trackedPaths
    dsimp only
    rw [hrel]
    split
    · simp
    · rename_i hcond
      push_neg at hcond
      have hmem : file ∈ getExtensionPaths m := hcond hf
      intro h0
      rw [h0] at hmem
      simp at hmem
  refine ⟨hne, ?_⟩
  unfold updateManifestVersion
  split
  · rename_i e heq
    intro hcontr
    simp only [Except.error.injEq] at hcontr
    exact parseManifestVersion_error_not_noPaths heq p hcontr
  · dsimp only
    split
    · rename_i hpaths
      exact absurd hpaths hne
    · split <;> simp

/-- C9 witness: a concrete discovered manifest file name is non-empty and the
fatal branch is not taken for a manifest with no `files` array. -/
theorem C9_noPaths_branch_unreachable_witness :
    "azure-devops-extension-a.json" ≠ "" ∧
    (trackedPaths "/repo" ("/repo" ++ "/" ++ "azure-devops-extension-a.json") mA ≠ [] ∧
     updateManifestVersion "/repo" ("/repo" ++ "/" ++ "azure-devops-extension-a.json") mA 1 none
        false envErr ≠ Except.error (UpdateError.noPaths "/repo/azure-devops-extension-a.json")) :=
  ⟨by decide,
    C9_noPaths_branch_unreachable "/repo" "azure-devops-extension-a.json" mA 1 none false envErr
      "/repo/azure-devops-extension-a.json" (by decide)⟩

/-- C10: when `git rev-parse HEAD` fails during an update, the manifest is
still written with the new version, but both metadata fields are carried over
unchanged (or stay absent), so the update is not anchored to the current
head; in particular a unit with no recorded baseline keeps none, and the
change detector reports it changed on every subsequent run. -/
theorem C10_update_not_anchored (root path : String) (m : Manifest) (vc : Int)
    (pub : Option String) (force : Bool) (env : UnitEnv) (out : UpdateOutcome)
    (h : updateManifestVersion root path m vc pub force env = Except.ok out)
    (hu : out.result.updated = true)
    (hg : env.gitRev = GitRevResult.err) :
    ∃ w, out.written = some w ∧
      w.version = some out.result.newVersion ∧
      storedLastVersionCommit w = storedLastVersionCommit m ∧
      storedLastVersionUpdate w = storedLastVersionUpdate m ∧
      lastVersionCommitOf w = lastVersionCommitOf m ∧
      (lastVersionCommitOf m = none →
        ∀ paths q, hasExtensionChanges paths (lastVersionCommitOf w) q = true) := by
  obtain ⟨cv, major, minor, cp, hp, -, hcase⟩ := updateManifestVersion_ok_cases h
  rcases hcase with ⟨-, rfl⟩ | ⟨-, rfl⟩
  · simp at hu
  · have hmd : newMetadata m env = m.metadata.getD ⟨none, none⟩ := by
      unfold newMetadata
      rw [hg]
      rfl
    refine ⟨_, rfl, rfl, ?_, ?_, ?_, ?_⟩
    · rw [hmd]
      exact storedLastVersionCommit_setMeta m _
    · rw [hmd]
      exact storedLastVersionUpdate_setMeta m _
    · rw [hmd]
      exact lastVersionCommitOf_setMeta m _
    · intro h0 paths q
      rw [hmd, lastVersionCommitOf_setMeta m _, h0]
      rfl

/-- C10 witness: force-updating `mMeta` with a failing `git rev-parse`
persists version `2.3.11` while both metadata fields keep their old values. -/
theorem C10_update_not_anchored_witness :
    updateManifestVersion "/repo" "/repo/azure-devops-extension-m.json" mMeta 5 none true envErr =
      Except.ok outC10 ∧
    (∃ w, outC10.written = some w ∧
      w.version = some outC10.result.newVersion ∧
      storedLastVersionCommit w = storedLastVersionCommit mMeta ∧
      storedLastVersionUpdate w = storedLastVersionUpdate mMeta ∧
      lastVersionCommitOf w = lastVersionCommitOf mMeta ∧
      (lastVersionCommitOf mMeta = none →
        ∀ paths q, hasExtensionChanges paths (lastVersionCommitOf w) q = true)) :=
  ⟨rfl, C10_update_not_anchored "/repo" "/repo/azure-devops-extension-m.json" mMeta 5 none true
    envErr outC10 rfl rfl rfl⟩
